import Mathlib

/-!
Shallow embedding of the request-optimization core in
`internal/superclaude/optimizer.go`.

Modelling conventions: Go strings are Lean `String`s; `time.Time` and
`time.Duration` are `Nat` (nanoseconds), with the current instant passed
explicitly as `now`; `interface{}` result payloads are the `String`s the
code actually produces; a request's one-shot `Response` channel is made
explicit by pairing the request with the response written to it; the
`sync.Map` cache is a function `String → Option CacheEntry`.
-/

namespace SuperClaude

/-- Embedding of Go `strings.Split(s, " ")` on the underlying character
list: splits around each single space character and always returns at
least one (possibly empty) piece. -/
def splitSpaceChars : List Char → List (List Char)
  | [] => [[]]
  | c :: cs =>
    if c = ' ' then [] :: splitSpaceChars cs
    else
      match splitSpaceChars cs with
      | [] => [[c]]
      | w :: ws => (c :: w) :: ws

/-- Embedding of Go `strings.Split(s, " ")`. -/
def goSplitSpace (s : String) : List String :=
  (splitSpaceChars s.data).map String.mk

/-- Embedding of Go `strings.HasPrefix(s, p)`. -/
def goHasPre (s p : String) : Bool :=
  p.data.isPrefixOf s.data

/-- Embedding of Go `strings.TrimPrefix(s, p)`: `s` without its leading
`p` when present, otherwise `s` unchanged. -/
def goTrimPre (s p : String) : String :=
  if goHasPre s p then String.mk (s.data.drop p.data.length) else s

/-- Function `extractCommandType` (optimizer.go:401): split the command on
single spaces; if the first piece starts with `/user:`, return it with
that marker removed, otherwise return `"unknown"`. -/
def extractCommandType (command : String) : String :=
  match goSplitSpace command with
  | p :: _ => if goHasPre p "/user:" then goTrimPre p "/user:" else "unknown"
  | [] => "unknown"

/-- Function `extractTarget` (optimizer.go:409): the second space-separated
piece when present, `"."` otherwise. -/
def extractTarget (command : String) : String :=
  match goSplitSpace command with
  | _ :: t :: _ => t
  | _ => "."

/-- Structure `OptimizedRequest` (optimizer.go:34). The `Context` field is
modelled at the await point (`AwaitEvent` below); `id` stands for the
identity of the request's one-shot `Response` channel, so that distinct
concurrent requests are distinct values. -/
structure OptimizedRequest where
  command : String
  sessionID : String
  id : Nat
  timestamp : Nat
deriving DecidableEq

/-- Structure `OptimizedResponse` (optimizer.go:43). The `interface{}`
result payload is the string the code produces; the Go `error` is
`Option String` (`none` = nil). -/
structure OptimizedResponse where
  result : String
  error : Option String
  cacheHit : Bool
  batchSize : Nat
  duration : Nat
deriving DecidableEq

/-- Structure `CacheEntry` (optimizer.go:311). -/
structure CacheEntry where
  data : String
  timestamp : Nat
deriving DecidableEq

/-- The constant `15 * time.Minute` in nanoseconds: the TTL used both by
`NewOptimizer` (`cacheTTL` field) and hard-coded in `CacheEntry.IsExpired`. -/
def cacheTTL : Nat := 15 * 60 * 1000000000

/-- Method `CacheEntry.IsExpired` (optimizer.go:317):
`time.Since(ce.Timestamp) > 15*time.Minute` at explicit current time
`now`. When `now` is earlier than the timestamp, Go compares a negative
duration and truncated `Nat` subtraction compares `0`; the strict `>`
fails either way. -/
def CacheEntry.isExpired (ce : CacheEntry) (now : Nat) : Bool :=
  cacheTTL < now - ce.timestamp

/-- Structure `Metrics` (optimizer.go:59), without the mutex (the lock
only serialises access; the counters themselves are modelled). -/
structure Metrics where
  totalRequests : Nat
  cacheHits : Nat
  avgDuration : Nat
  peakMemory : Nat
deriving DecidableEq

/-- The zero value `&Metrics{}` installed by `NewOptimizer`. -/
def Metrics.init : Metrics := ⟨0, 0, 0, 0⟩

/-- Method `recordRequest` (optimizer.go:370): increment `totalRequests`
and fold the duration into the smoothed average (`avgDuration` is read
before this call writes it, so the two field updates are independent). -/
def recordRequest (m : Metrics) (duration : Nat) : Metrics :=
  { m with
    totalRequests := m.totalRequests + 1,
    avgDuration :=
      if m.avgDuration = 0 then duration
      else (m.avgDuration + duration) / 2 }

/-- Method `recordCacheHit` (optimizer.go:384). -/
def recordCacheHit (m : Metrics) : Metrics :=
  { m with cacheHits := m.cacheHits + 1 }

/-- Method `getCacheHitRate` (optimizer.go:390); the `float64` quotient is
modelled as the exact rational it approximates. -/
def getCacheHitRate (m : Metrics) : ℚ :=
  if m.totalRequests = 0 then 0
  else (m.cacheHits : ℚ) / (m.totalRequests : ℚ)

/-- The `sync.Map` response cache, as a map from key to entry. -/
abbrev Cache := String → Option CacheEntry

/-- Store step `opt.cache.Store(key, &CacheEntry{Data: v, Timestamp: now})`
(optimizer.go:170). -/
def cacheStore (c : Cache) (key v : String) (now : Nat) : Cache :=
  fun k => if k = key then some ⟨v, now⟩ else c k

/-- Cache key `fmt.Sprintf("%s:%s", sessionID, command)` (optimizer.go:135). -/
def cacheKey (sessionID command : String) : String :=
  sessionID ++ ":" ++ command

/-- Cache fast path of `OptimizeCommand` (optimizer.go:131-145): look the
key up; on an unexpired entry, record the hit and return the cached data
with `CacheHit` true (`Error` nil and `BatchSize` 0 are the Go zero
values; `Duration` is `time.Since(start)` taken at the same instant, i.e.
0 in an instantaneous model). `none` means the slow (non-cached) path
runs. -/
def optimizeFastPath (c : Cache) (m : Metrics) (sessionID command : String)
    (now : Nat) : Option (OptimizedResponse × Metrics) :=
  match c (cacheKey sessionID command) with
  | some entry =>
    if entry.isExpired now then none
    else
      some ({ result := entry.data, error := none, cacheHit := true,
              batchSize := 0, duration := 0 }, recordCacheHit m)
  | none => none

/-- Method `processSingleRequest` (optimizer.go:255): one response written
to the request's `Response` channel; the pair records which request the
response was written to. -/
def processSingleRequest (now : Nat) (req : OptimizedRequest) :
    OptimizedRequest × OptimizedResponse :=
  (req, { result := "Processed: " ++ req.command, error := none,
          cacheHit := false, batchSize := 1,
          duration := now - req.timestamp })

/-- Result string
`fmt.Sprintf("Combined analysis of %s for %d requests", target, n)`
(optimizer.go:280): the one computation performed per distinct target. -/
def combinedResult (target : String) (n : Nat) : String :=
  "Combined analysis of " ++ target ++ " for " ++ toString n ++ " requests"

/-- Method `combineAnalyzeRequests` (optimizer.go:270): partition the
group by target, compute one combined result per distinct target, and
write it to every member of that target's sub-group with `BatchSize` the
sub-group size. Go builds a `map[string][]*OptimizedRequest` and iterates
it; flat-mapping over the deduplicated target list enumerates the same
sub-groups. Returns the list of channel writes together with the number
of underlying result computations (one per distinct target). -/
def combineAnalyzeRequests (now : Nat) (requests : List OptimizedRequest) :
    List (OptimizedRequest × OptimizedResponse) × Nat :=
  let targets := (requests.map fun r => extractTarget r.command).dedup
  (targets.flatMap fun target =>
      let reqs := requests.filter fun r => extractTarget r.command = target
      reqs.map fun r =>
        (r, { result := combinedResult target reqs.length, error := none,
              cacheHit := false, batchSize := reqs.length,
              duration := now - r.timestamp }),
   targets.length)

/-- Method `parallelTestRequests` (optimizer.go:296): every request is
submitted to the worker pool and processed as a single request; one write
and one underlying execution each. -/
def parallelTestRequests (now : Nat) (requests : List OptimizedRequest) :
    List (OptimizedRequest × OptimizedResponse) × Nat :=
  (requests.map (processSingleRequest now), requests.length)

/-- Method `processCommandGroup` (optimizer.go:237): strategy switch on
the command type: `"analyze"` combines, `"test"` runs in parallel, every
other type is processed one request at a time. -/
def processCommandGroup (now : Nat) (cmdType : String)
    (requests : List OptimizedRequest) :
    List (OptimizedRequest × OptimizedResponse) × Nat :=
  if cmdType = "analyze" then combineAnalyzeRequests now requests
  else if cmdType = "test" then parallelTestRequests now requests
  else (requests.map (processSingleRequest now), requests.length)

/-- Method `processBatch` (optimizer.go:213): group the batch by command
type (a Go map, enumerated here as the deduplicated list of types in
batch order) and run every group's strategy, collecting all channel
writes and the total number of underlying computations. -/
def processBatch (now : Nat) (batch : List OptimizedRequest) :
    List (OptimizedRequest × OptimizedResponse) × Nat :=
  let types := (batch.map fun r => extractCommandType r.command).dedup
  (types.flatMap fun t =>
      (processCommandGroup now t
        (batch.filter fun r => extractCommandType r.command = t)).1,
   (types.map fun t =>
      (processCommandGroup now t
        (batch.filter fun r => extractCommandType r.command = t)).2).sum)

/-- The `opt.batchSize` value set by `NewOptimizer` (optimizer.go:72). -/
def batchSizeDefault : Nat := 10

/-- Events observed by one turn of the `processBatches` select
(optimizer.go:191): a request arriving on `batchQueue`, or the
`batchDelay` ticker firing. -/
inductive CollectorEvent where
  | arrival (req : OptimizedRequest)
  | tick
deriving DecidableEq

/-- One flushed batch, tagged with whether the flush was triggered by the
buffer reaching `batchSize` (`bySize = true`) or by the ticker. -/
structure Flush where
  batch : List OptimizedRequest
  bySize : Bool
deriving DecidableEq

/-- One iteration of the `processBatches` loop (optimizer.go:191-209) at
buffer state `buf`: an arrival is appended, and the buffer is flushed and
reset if its length reached `C = batchSize`; a tick flushes a non-empty
buffer. -/
def collectorStep (C : Nat) (buf : List OptimizedRequest) :
    CollectorEvent → List OptimizedRequest × Option Flush
  | .arrival req =>
    let b := buf ++ [req]
    if C ≤ b.length then ([], some ⟨b, true⟩) else (b, none)
  | .tick =>
    if buf.length > 0 then ([], some ⟨buf, false⟩) else (buf, none)

/-- Run of the collector loop from buffer state `buf` over a sequence of
events, returning the final buffer and the flushes in order. -/
def collectorRun (C : Nat) (buf : List OptimizedRequest) :
    List CollectorEvent → List OptimizedRequest × List Flush
  | [] => (buf, [])
  | ev :: evs =>
    let step := collectorStep C buf ev
    let rest := collectorRun C step.1 evs
    (rest.1, step.2.toList ++ rest.2)

/-- State of a `WorkerPool` (optimizer.go:52): one `Bool` per worker
goroutine started by `NewWorkerPool` (`true` while that worker is
executing a task), plus the pending contents of `taskQueue`, with tasks
as opaque ids. -/
structure WPState where
  workers : List Bool
  queue : List Nat
deriving DecidableEq

/-- `NewWorkerPool n` (optimizer.go:95): `n` idle workers, empty queue. -/
def initWP (n : Nat) : WPState :=
  ⟨List.replicate n false, []⟩

/-- The worker count `runtime.NumCPU() * 2` configured by `NewOptimizer`
(optimizer.go:79). -/
def defaultWorkers (numCPU : Nat) : Nat := numCPU * 2

/-- Transitions of the worker pool: `Submit` enqueues onto `taskQueue`
when the buffered channel (capacity `workers*2`, optimizer.go:98) has
room; an idle worker goroutine dequeues the head task and starts
executing it (`for task := range wp.taskQueue`); an executing worker
finishes its task. Only the `n` worker goroutines execute tasks, one at a
time each. -/
inductive WPStep (n : Nat) : WPState → WPState → Prop where
  | submit (s : WPState) (t : Nat) (h : s.queue.length < 2 * n) :
      WPStep n s ⟨s.workers, s.queue ++ [t]⟩
  | pick (s : WPState) (i : Nat) (t : Nat) (rest : List Nat)
      (hi : s.workers[i]? = some false) (hq : s.queue = t :: rest) :
      WPStep n s ⟨s.workers.set i true, rest⟩
  | finish (s : WPState) (i : Nat) (hi : s.workers[i]? = some true) :
      WPStep n s ⟨s.workers.set i false, s.queue⟩

/-- Pool states reachable from the freshly constructed pool. -/
def ReachableWP (n : Nat) (s : WPState) : Prop :=
  Relation.ReflTransGen (WPStep n) (initWP n) s

/-- Number of simultaneously executing tasks. -/
def WPState.running (s : WPState) : Nat :=
  s.workers.count true

/-- Outcome of the final select of `OptimizeCommand` (optimizer.go:166):
either the `Response` channel delivers a response first, or `ctx.Done()`
fires first with `ctx.Err() = err`. -/
inductive AwaitEvent where
  | fulfilled (resp : OptimizedResponse)
  | cancelled (err : String)

/-- Await phase of `OptimizeCommand` (optimizer.go:166-181): on a
response, cache it when it is a fresh success (`Error == nil &&
!CacheHit`) and record the request in the metrics, returning
`(resp, nil)`; on cancellation return `(nil, ctx.Err())` at once — the
function ends there (no retry), leaving cache and metrics untouched.
Result is `((response, error), cache, metrics)`. -/
def awaitResponse (c : Cache) (m : Metrics) (key : String)
    (start now : Nat) :
    AwaitEvent → (Option OptimizedResponse × Option String) × Cache × Metrics
  | .fulfilled resp =>
    let c1 :=
      if resp.error = none ∧ resp.cacheHit = false then
        cacheStore c key resp.result now
      else c
    ((some resp, none), c1, recordRequest m (now - start))
  | .cancelled err => ((none, some err), c, m)

/-- Leading token of a command in the claim's words: its first
whitespace-separated token. -/
def leadingToken (s : String) : String :=
  String.mk (s.data.takeWhile fun c => ¬ c.isWhitespace)

/-- Leading token with respect to the single-space splitting the code
actually performs. -/
def leadingSpaceToken (s : String) : String :=
  String.mk (s.data.takeWhile fun c => c ≠ ' ')

/-- A batch of five concurrent requests for the spec's example command
`"analyze src"`, all in session `"s1"` (distinct `Response` channels). -/
def analyzeSrcBatch : List OptimizedRequest :=
  [⟨"analyze src", "s1", 1, 0⟩, ⟨"analyze src", "s1", 2, 0⟩,
   ⟨"analyze src", "s1", 3, 0⟩, ⟨"analyze src", "s1", 4, 0⟩,
   ⟨"analyze src", "s1", 5, 0⟩]

/-- A batch of five concurrent requests for `"/user:analyze src"`, the
command form the code actually routes to the combine strategy. -/
def userAnalyzeBatch : List OptimizedRequest :=
  [⟨"/user:analyze src", "s1", 1, 0⟩, ⟨"/user:analyze src", "s1", 2, 0⟩,
   ⟨"/user:analyze src", "s1", 3, 0⟩, ⟨"/user:analyze src", "s1", 4, 0⟩,
   ⟨"/user:analyze src", "s1", 5, 0⟩]

/-- The empty cache a fresh `Optimizer` starts with. -/
def emptyCache : Cache := fun _ => none

/-- A one-entry cache holding a fresh value for session `"s1"`, command
`"build"`. -/
def hitCache : Cache :=
  cacheStore emptyCache (cacheKey "s1" "build") "v" 0

end SuperClaude

namespace SuperClaude

/-! Helper lemmas. -/

lemma splitSpaceChars_ne_nil (l : List Char) : splitSpaceChars l ≠ [] := by
  cases l with
  | nil => simp [splitSpaceChars]
  | cons c cs =>
    simp only [splitSpaceChars]
    split
    · simp
    · cases h : splitSpaceChars cs <;> simp

lemma splitSpaceChars_head (l : List Char) :
    (splitSpaceChars l).head? = some (l.takeWhile fun c => c ≠ ' ') := by
  induction l with
  | nil => rfl
  | cons c cs ih =>
    by_cases hc : c = ' '
    · subst hc
      simp [splitSpaceChars, List.takeWhile_cons]
    · cases h : splitSpaceChars cs with
      | nil => exact absurd h (splitSpaceChars_ne_nil cs)
      | cons w ws =>
        rw [h] at ih
        simp only [List.head?_cons, Option.some_inj] at ih
        simp [splitSpaceChars, hc, h, List.takeWhile_cons, ih]

lemma count_filter_key {α β : Type} [DecidableEq α] [DecidableEq β]
    (f : α → β) (t : β) (x : α) (l : List α) :
    (l.filter fun y => f y = t).count x =
      if f x = t then l.count x else 0 := by
  induction l with
  | nil => simp
  | cons a l ih =>
    by_cases hat : f a = t <;> by_cases hax : a = x <;>
      simp_all [List.filter_cons, List.count_cons]

lemma sum_map_if_mem {β : Type} [DecidableEq β] (b : β) (c : Nat) :
    ∀ L : List β, L.Nodup →
      (L.map fun t => if b = t then c else 0).sum = if b ∈ L then c else 0
  | [], _ => by simp
  | a :: L, h => by
    have hnd := List.nodup_cons.mp h
    by_cases hba : b = a
    · subst hba
      simp [sum_map_if_mem b c L hnd.2, hnd.1]
    · simp [hba, sum_map_if_mem b c L hnd.2]

lemma flatMap_filter_perm {α β : Type} [DecidableEq α] [DecidableEq β]
    (f : α → β) (l : List α) :
    ((l.map f).dedup.flatMap fun t => l.filter fun x => f x = t).Perm l := by
  rw [List.perm_iff_count]
  intro x
  rw [List.count_flatMap]
  simp only [Function.comp_def]
  have h1 : ((l.map f).dedup.map fun t => (l.filter fun y => f y = t).count x)
      = (l.map f).dedup.map fun t => if f x = t then l.count x else 0 :=
    List.map_congr_left fun t _ => count_filter_key f t x l
  rw [h1, sum_map_if_mem _ _ _ (List.nodup_dedup _)]
  by_cases hx : x ∈ l
  · rw [if_pos (List.mem_dedup.mpr (List.mem_map_of_mem f hx))]
  · rw [List.count_eq_zero.mpr hx]
    simp

lemma flatMap_perm_congr {α β : Type} (L : List β) (g1 g2 : β → List α)
    (h : ∀ t ∈ L, (g1 t).Perm (g2 t)) :
    (L.flatMap g1).Perm (L.flatMap g2) := by
  induction L with
  | nil => simp
  | cons a L ih =>
    simp only [List.flatMap_cons]
    exact (h a (List.mem_cons_self a L)).append
      (ih fun t ht => h t (List.mem_cons_of_mem a ht))

lemma map_fst_map_pair {α γ : Type} (l : List α) (g : α → γ) :
    (l.map fun r => (r, g r)).map Prod.fst = l := by
  rw [List.map_map]
  exact List.map_id' l

lemma map_fst_processSingle (now : Nat) (reqs : List OptimizedRequest) :
    (reqs.map (processSingleRequest now)).map Prod.fst = reqs :=
  map_fst_map_pair reqs _

lemma combineAnalyzeRequests_fst (now : Nat)
    (requests : List OptimizedRequest) :
    (combineAnalyzeRequests now requests).1.map Prod.fst =
      (requests.map fun r => extractTarget r.command).dedup.flatMap
        fun t => requests.filter fun r => extractTarget r.command = t := by
  simp only [combineAnalyzeRequests, List.map_flatMap]
  exact congrArg _ (funext fun t => map_fst_map_pair _ _)

lemma processCommandGroup_fst_perm (now : Nat) (t : String)
    (reqs : List OptimizedRequest) :
    ((processCommandGroup now t reqs).1.map Prod.fst).Perm reqs := by
  unfold processCommandGroup
  split_ifs with h1 h2
  · rw [combineAnalyzeRequests_fst]
    exact flatMap_filter_perm
      (fun r : OptimizedRequest => extractTarget r.command) reqs
  · show ((parallelTestRequests now reqs).1.map Prod.fst).Perm reqs
    unfold parallelTestRequests
    rw [map_fst_processSingle]
  · rw [map_fst_processSingle]

lemma processBatch_fst_perm (now : Nat) (batch : List OptimizedRequest) :
    ((processBatch now batch).1.map Prod.fst).Perm batch := by
  simp only [processBatch, List.map_flatMap]
  refine List.Perm.trans (flatMap_perm_congr _ _ _ fun t _ =>
      processCommandGroup_fst_perm now t _) ?_
  exact flatMap_filter_perm
    (fun r : OptimizedRequest => extractCommandType r.command) batch

lemma collectorStep_buf_lt (C : Nat) (hC : 0 < C)
    (buf : List OptimizedRequest) (ev : CollectorEvent)
    (hb : buf.length < C) :
    (collectorStep C buf ev).1.length < C := by
  cases ev with
  | arrival req =>
    simp only [collectorStep]
    split
    · simpa using hC
    · next h => simpa using Nat.lt_of_not_le h
  | tick =>
    simp only [collectorStep]
    split
    · simpa using hC
    · simpa using hb

lemma collectorStep_flush_le (C : Nat) (buf : List OptimizedRequest)
    (ev : CollectorEvent) (hb : buf.length < C) (f : Flush)
    (hf : f ∈ (collectorStep C buf ev).2.toList) (hsz : f.bySize = true) :
    f.batch.length ≤ C := by
  cases ev with
  | arrival req =>
    simp only [collectorStep] at hf
    split at hf
    · simp only [Option.toList_some, List.mem_singleton] at hf
      subst hf
      simp only [List.length_append, List.length_singleton]
      omega
    · simp at hf
  | tick =>
    simp only [collectorStep] at hf
    split at hf
    · simp only [Option.toList_some, List.mem_singleton] at hf
      subst hf
      simp at hsz
    · simp at hf

lemma collectorRun_flush_le (C : Nat) (hC : 0 < C) :
    ∀ (events : List CollectorEvent) (buf : List OptimizedRequest),
      buf.length < C →
      ∀ f ∈ (collectorRun C buf events).2, f.bySize = true →
        f.batch.length ≤ C := by
  intro events
  induction events with
  | nil =>
    intro buf hb f hf
    simp [collectorRun] at hf
  | cons ev evs ih =>
    intro buf hb f hf hsz
    simp only [collectorRun] at hf
    rcases List.mem_append.mp hf with hstep | hrest
    · exact collectorStep_flush_le C buf ev hb f hstep hsz
    · exact ih _ (collectorStep_buf_lt C hC buf ev hb) f hrest hsz

lemma reachableWP_workers_length (n : Nat) (s : WPState)
    (h : ReachableWP n s) : s.workers.length = n := by
  have h' : Relation.ReflTransGen (WPStep n) (initWP n) s := h
  clear h
  induction h' with
  | refl => simp [initWP]
  | tail _ step ih =>
    cases step with
    | submit t hq => simpa using ih
    | pick i t rest hi hq => simpa using ih
    | finish i hi => simpa using ih

lemma dedup_map_const {α β : Type} [DecidableEq β] (f : α → β) (c : β) :
    ∀ l : List α, l ≠ [] → (∀ x ∈ l, f x = c) → (l.map f).dedup = [c]
  | [], h, _ => absurd rfl h
  | [a], _, hc => by
    simp [hc a (List.mem_singleton_self a)]
  | a :: b :: l, _, hc => by
    have ht := dedup_map_const f c (b :: l) (by simp)
      fun x hx => hc x (List.mem_cons_of_mem a hx)
    have hmem : c ∈ (b :: l).map f := by
      rw [← hc b (List.mem_cons_of_mem a (List.mem_cons_self b l))]
      exact List.mem_map_of_mem f (List.mem_cons_self b l)
    rw [List.map_cons, hc a (List.mem_cons_self a (b :: l)),
      List.dedup_cons_of_mem hmem, ht]

lemma colon_append_inj (l1 : List Char) :
    ∀ l2 r1 r2 : List Char, ':' ∉ l1 → ':' ∉ l2 →
      l1 ++ ':' :: r1 = l2 ++ ':' :: r2 → l1 = l2 ∧ r1 = r2 := by
  induction l1 with
  | nil =>
    intro l2 r1 r2 h1 h2 h
    cases l2 with
    | nil => simpa using h
    | cons b l2 =>
      simp only [List.nil_append, List.cons_append, List.cons.injEq] at h
      exact absurd (h.1 ▸ List.mem_cons_self ':' l2) h2
  | cons a l1 ih =>
    intro l2 r1 r2 h1 h2 h
    cases l2 with
    | nil =>
      simp only [List.cons_append, List.nil_append, List.cons.injEq] at h
      exact absurd (h.1 ▸ List.mem_cons_self a l1) h1
    | cons b l2 =>
      simp only [List.cons_append, List.cons.injEq] at h
      obtain ⟨hab, ht⟩ := h
      obtain ⟨hl, hr⟩ := ih l2 r1 r2
        (fun hm => h1 (List.mem_cons_of_mem a hm))
        (fun hm => h2 (List.mem_cons_of_mem b hm)) ht
      exact ⟨by rw [hab, hl], hr⟩

/-! Claim theorems. -/

/-- C1, counterexample: five concurrent requests for the spec's literal
example command `"analyze src"` (same session, same target) are NOT
combined by the code: `extractCommandType "analyze src" = "unknown"` (no
`/user:` marker), so the batch takes the default strategy — five
underlying executions and every response reports `BatchSize = 1`, where
the claim demands one execution and `BatchSize = 5`. -/
theorem combine_sharing_cex :
    (processBatch 0 analyzeSrcBatch).2 = 5 ∧
    ((processBatch 0 analyzeSrcBatch).1.map fun p => p.2.batchSize) =
      [1, 1, 1, 1, 1] := by
  decide

/-- C1 (amended): for a batch of N concurrent requests whose command type
is the combinable type `"analyze"` (i.e. whose command begins with
`/user:analyze`) and which share one target, the underlying computation
runs exactly once, every request's channel is written exactly once (the
writes enumerate the batch), and every response carries the shared result
with `BatchSize = N`. -/
theorem combine_sharing (now : Nat) (batch : List OptimizedRequest)
    (target : String) (hne : batch ≠ [])
    (hty : ∀ r ∈ batch, extractCommandType r.command = "analyze")
    (htg : ∀ r ∈ batch, extractTarget r.command = target) :
    (processBatch now batch).2 = 1 ∧
    (processBatch now batch).1.map Prod.fst = batch ∧
    ∀ p ∈ (processBatch now batch).1,
      p.2.batchSize = batch.length ∧
      p.2.result = combinedResult target batch.length := by
  have htypes :
      (batch.map fun r => extractCommandType r.command).dedup = ["analyze"] :=
    dedup_map_const _ _ batch hne hty
  have hfilter :
      (batch.filter fun r => extractCommandType r.command = "analyze") =
        batch :=
    List.filter_eq_self.mpr fun r hr => by simpa using hty r hr
  have htargets :
      (batch.map fun r => extractTarget r.command).dedup = [target] :=
    dedup_map_const _ _ batch hne htg
  have hfilter2 :
      (batch.filter fun r => extractTarget r.command = target) = batch :=
    List.filter_eq_self.mpr fun r hr => by simpa using htg r hr
  simp only [processBatch, htypes, List.flatMap_cons, List.flatMap_nil,
    List.append_nil, List.map_cons, List.map_nil, List.sum_cons,
    List.sum_nil, hfilter, processCommandGroup, if_pos rfl,
    combineAnalyzeRequests, htargets, hfilter2]
  refine ⟨rfl, map_fst_map_pair batch _, ?_⟩
  intro p hp
  obtain ⟨r, hr, rfl⟩ := List.mem_map.mp hp
  exact ⟨rfl, rfl⟩

/-- C1 witness for the amended theorem: five concurrent
`"/user:analyze src"` requests in session `"s1"` yield one underlying
execution and five responses, each with `BatchSize = 5` and the shared
combined result. -/
theorem combine_sharing_witness :
    (processBatch 0 userAnalyzeBatch).2 = 1 ∧
    (processBatch 0 userAnalyzeBatch).1.map Prod.fst = userAnalyzeBatch ∧
    ∀ p ∈ (processBatch 0 userAnalyzeBatch).1,
      p.2.batchSize = userAnalyzeBatch.length ∧
      p.2.result = combinedResult "src" userAnalyzeBatch.length :=
  combine_sharing 0 userAnalyzeBatch "src" (by decide) (by decide)
    (by decide)

/-- C2, counterexample: the partition key `extractCommandType` does not
equal the leading whitespace-separated token: on the command `"build A"`
(the spec's own §8 example command, which can appear in any flushed
batch) the code computes `"unknown"` while the leading token is
`"build"`. -/
theorem partition_key_cex :
    extractCommandType "build A" = "unknown" ∧
    leadingToken "build A" = "build" ∧
    ("unknown" : String) ≠ "build" := by
  decide

/-- C2 (amended): for every command string, the command type used to
partition a flushed batch equals the leading space-separated token of the
command with its `/user:` marker removed when the token starts with
`/user:`, and is the constant `"unknown"` otherwise. -/
theorem partition_key_amended (command : String) :
    extractCommandType command =
      if goHasPre (leadingSpaceToken command) "/user:" then
        goTrimPre (leadingSpaceToken command) "/user:"
      else "unknown" := by
  have h := splitSpaceChars_head command.data
  cases hs : splitSpaceChars command.data with
  | nil => exact absurd hs (splitSpaceChars_ne_nil _)
  | cons w ws =>
    rw [hs] at h
    simp only [List.head?_cons, Option.some_inj, decide_not] at h
    simp [extractCommandType, goSplitSpace, hs, leadingSpaceToken,
      decide_not, ← h]

/-- C3: after a store of value `v` for a key at time `tstore`, a lookup at
any time `now` within the TTL (`now - tstore ≤ cacheTTL`; `IsExpired`
uses a strict `>`, so age exactly TTL still hits) returns the stored
value with `CacheHit = true` and increments the cache-hit counter; a
lookup after the TTL has elapsed returns `none`, so the request takes the
non-cached execution path. -/
theorem cache_freshness (c : Cache) (m : Metrics)
    (sessionID command v : String) (tstore now : Nat) :
    (now - tstore ≤ cacheTTL →
      optimizeFastPath (cacheStore c (cacheKey sessionID command) v tstore)
          m sessionID command now =
        some ({ result := v, error := none, cacheHit := true,
                batchSize := 0, duration := 0 }, recordCacheHit m) ∧
      (recordCacheHit m).cacheHits = m.cacheHits + 1) ∧
    (cacheTTL < now - tstore →
      optimizeFastPath (cacheStore c (cacheKey sessionID command) v tstore)
          m sessionID command now = none) := by
  constructor
  · intro h
    refine ⟨?_, rfl⟩
    simp [optimizeFastPath, cacheStore, CacheEntry.isExpired,
      Nat.not_lt.mpr h]
  · intro h
    simp [optimizeFastPath, cacheStore, CacheEntry.isExpired, h]

/-- C3 witness: in session `"s1"`, a value stored for `"build A"` at time
0 is a hit with `CacheHit = true` when looked up at exactly the TTL
(900000000000 ns = 15 min), and a miss one nanosecond later. -/
theorem cache_freshness_witness :
    (optimizeFastPath
        (cacheStore emptyCache (cacheKey "s1" "build A") "v" 0)
        Metrics.init "s1" "build A" 900000000000 =
      some ({ result := "v", error := none, cacheHit := true,
              batchSize := 0, duration := 0 }, recordCacheHit Metrics.init) ∧
      (recordCacheHit Metrics.init).cacheHits =
        Metrics.init.cacheHits + 1) ∧
    optimizeFastPath
        (cacheStore emptyCache (cacheKey "s1" "build A") "v" 0)
        Metrics.init "s1" "build A" 900000000001 = none :=
  ⟨(cache_freshness emptyCache Metrics.init "s1" "build A" "v" 0
      900000000000).1 (by decide),
   (cache_freshness emptyCache Metrics.init "s1" "build A" "v" 0
      900000000001).2 (by decide)⟩

/-- C4, counterexample: the key function `sessionId + ":" + command` is
not injective over all strings: the distinct pairs `("a:b", "c")` and
`("a", "b:c")` collide on the key `"a:b:c"`. -/
theorem cacheKey_collision_cex :
    cacheKey "a:b" "c" = cacheKey "a" "b:c" ∧
    (("a:b", "c") : String × String) ≠ ("a", "b:c") := by
  decide

/-- C4 (amended): the key function is injective provided session ids
contain no colon — for two pairs whose session ids are colon-free, equal
keys force equal session ids and equal commands (the command may contain
anything). -/
theorem cacheKey_injective (s1 c1 s2 c2 : String)
    (h1 : ':' ∉ s1.data) (h2 : ':' ∉ s2.data)
    (h : cacheKey s1 c1 = cacheKey s2 c2) : s1 = s2 ∧ c1 = c2 := by
  have hcolon : (":" : String).data = [':'] := rfl
  have hd : s1.data ++ ':' :: c1.data = s2.data ++ ':' :: c2.data := by
    have hdata := congrArg String.data h
    simpa [cacheKey, String.data_append, hcolon] using hdata
  obtain ⟨hs, hc⟩ := colon_append_inj s1.data s2.data c1.data c2.data h1 h2 hd
  constructor
  · cases s1
    cases s2
    exact congrArg String.mk hs
  · cases c1
    cases c2
    exact congrArg String.mk hc

/-- C4 witness for the amended theorem: colon-free session id `"s1"` with
command `"build A"`; equal keys give back the equal components. -/
theorem cacheKey_injective_witness :
    ("s1" : String) = "s1" ∧ ("build A" : String) = "build A" :=
  cacheKey_injective "s1" "build A" "s1" "build A" (by decide) (by decide)
    rfl

/-- C5: along any run of the collector loop from an empty buffer, every
flush triggered by the buffer reaching capacity `C` (with `C ≥ 1`; the
configured default is `batchSizeDefault = 10`) has length at most `C`. -/
theorem batch_size_bound (C : Nat) (hC : 0 < C)
    (events : List CollectorEvent) (f : Flush)
    (hf : f ∈ (collectorRun C [] events).2) (hsz : f.bySize = true) :
    f.batch.length ≤ C :=
  collectorRun_flush_le C hC events [] (by simpa using hC) f hf hsz

/-- C5 witness: with capacity 2, two back-to-back arrivals trigger a
flush-by-size whose batch has length 2 ≤ 2. -/
theorem batch_size_bound_witness :
    (Flush.mk [⟨"build A", "s1", 1, 0⟩, ⟨"build B", "s1", 2, 0⟩]
      true).batch.length ≤ 2 :=
  batch_size_bound 2 (by decide)
    [.arrival ⟨"build A", "s1", 1, 0⟩, .arrival ⟨"build B", "s1", 2, 0⟩]
    (Flush.mk [⟨"build A", "s1", 1, 0⟩, ⟨"build B", "s1", 2, 0⟩] true)
    (by decide) rfl

/-- C6: every pending request's `Response` channel is written exactly
once. On the batch path, the (request, response) writes produced by
`processBatch` — through the combine, parallel, and default strategies —
form a permutation of the batch, so every member receives exactly one
write, never zero and never two; on the handoff-timeout fallback path,
`processSingleRequest` performs exactly one write to the one request. -/
theorem exactly_once_fulfillment (now : Nat)
    (batch : List OptimizedRequest) :
    ((processBatch now batch).1.map Prod.fst).Perm batch ∧
    ∀ req : OptimizedRequest,
      [processSingleRequest now req].map Prod.fst = [req] :=
  ⟨processBatch_fst_perm now batch, fun _ => rfl⟩

/-- C7: when the caller's cancellation fires before the fulfillment slot
is written, the await phase of `OptimizeCommand` returns the context's
error with a nil response, writes nothing to the cache, records nothing
in the metrics, and ends there — the request is not retried. -/
theorem cancellation_returns_error (c : Cache) (m : Metrics) (key : String)
    (start now : Nat) (err : String) :
    awaitResponse c m key start now (.cancelled err) =
      ((none, some err), c, m) :=
  rfl

/-- C8: in every pool state reachable from a freshly constructed
`WorkerPool` with `n` workers (the `NewOptimizer` default being
`defaultWorkers numCPU = numCPU * 2`), the number of simultaneously
executing submitted tasks never exceeds `n`; excess submissions sit in
the bounded queue. -/
theorem worker_pool_bound (n : Nat) (s : WPState) (h : ReachableWP n s) :
    s.running ≤ n := by
  have hl := reachableWP_workers_length n s h
  calc s.workers.count true ≤ s.workers.length :=
        List.count_le_length true s.workers
    _ = n := hl

/-- C8 witness: with the default worker count for 2 CPUs (4 workers), the
state reached by one `Submit` has at most 4 tasks executing. -/
theorem worker_pool_bound_witness :
    (WPState.mk (List.replicate (defaultWorkers 2) false) [0]).running ≤
      defaultWorkers 2 :=
  worker_pool_bound (defaultWorkers 2) _
    (Relation.ReflTransGen.single
      (WPStep.submit (initWP (defaultWorkers 2)) 0 (by decide)))

/-- C9: `recordRequest` increments `totalRequests` by exactly one and
sets the stored average to the new duration when the previous average was
zero, and to `(avg + duration) / 2` with truncating integer division
otherwise; this smoother is not a true arithmetic mean — after durations
8, 2, 2 it stores 3 while the mean is 4. -/
theorem smoothed_average (m : Metrics) (d : Nat) :
    (recordRequest m d).totalRequests = m.totalRequests + 1 ∧
    (recordRequest m d).avgDuration =
      (if m.avgDuration = 0 then d else (m.avgDuration + d) / 2) ∧
    (recordRequest (recordRequest (recordRequest Metrics.init 8) 2)
        2).avgDuration ≠ (8 + 2 + 2) / 3 :=
  ⟨rfl, rfl, by decide⟩

/-- C10: a cache hit returns from the fast path with `cacheHits`
incremented and `totalRequests` unchanged (`recordRequest` runs only on
the non-cached path), so `totalRequests` counts only non-cached requests;
whenever cache hits outnumber non-cached requests (with the
`totalRequests = 0` guard not engaged) the hit rate exceeds 1 — e.g.
after two hits and one recorded request it is 2. -/
theorem hit_rate_accounting :
    (∀ (c : Cache) (m : Metrics) (sessionID command : String) (now : Nat)
        (resp : OptimizedResponse) (m1 : Metrics),
        optimizeFastPath c m sessionID command now = some (resp, m1) →
        m1.cacheHits = m.cacheHits + 1 ∧
        m1.totalRequests = m.totalRequests) ∧
    (∀ m : Metrics, m.totalRequests ≠ 0 →
        m.totalRequests < m.cacheHits → 1 < getCacheHitRate m) ∧
    1 < getCacheHitRate
        (recordRequest (recordCacheHit (recordCacheHit Metrics.init)) 5) := by
  refine ⟨?_, ?_, ?_⟩
  · intro c m sessionID command now resp m1 h
    unfold optimizeFastPath at h
    split at h
    · split at h
      · exact absurd h (by simp)
      · simp only [Option.some_inj, Prod.mk.injEq] at h
        rw [← h.2]
        exact ⟨rfl, rfl⟩
    · exact absurd h (by simp)
  · intro m h0 hlt
    rw [getCacheHitRate, if_neg h0]
    have hpos : (0 : ℚ) < (m.totalRequests : ℚ) := by
      exact_mod_cast Nat.pos_of_ne_zero h0
    rw [one_lt_div hpos]
    exact_mod_cast hlt
  · norm_num [getCacheHitRate, recordRequest, recordCacheHit, Metrics.init]

/-- C10 witness: on a fresh-entry hit the returned metrics have one more
cache hit and an unchanged request total, and after two hits against one
non-cached request the reported hit rate is above 1. -/
theorem hit_rate_accounting_witness :
    ((recordCacheHit Metrics.init).cacheHits =
        Metrics.init.cacheHits + 1 ∧
      (recordCacheHit Metrics.init).totalRequests =
        Metrics.init.totalRequests) ∧
    1 < getCacheHitRate (Metrics.mk 1 2 0 0) :=
  ⟨hit_rate_accounting.1 hitCache Metrics.init "s1" "build" 0
      { result := "v", error := none, cacheHit := true, batchSize := 0,
        duration := 0 }
      (recordCacheHit Metrics.init) (by decide),
   hit_rate_accounting.2.1 (Metrics.mk 1 2 0 0) (by decide) (by decide)⟩

end SuperClaude
